import Mathlib

/-!
Verification development for the MuJoCo ↔ FEAGI generic controller
(`src/simulators/mujoco/generic/controller.py`).

The Python module's capability-discovery / schema-reconciliation procedure,
its inbound-command application (`action`), its contact-force sampling and
its sensor-name normalization are shallowly embedded below.  Python `dict`s
(insertion-ordered, unique string keys) are embedded as association lists
with an update-in-place-or-append write operation; Python `str(n)` on a
natural number is embedded by `idString`; fallible dictionary subscripts
(`d[k]`, which raise `KeyError`) are embedded through `Option`.
-/

namespace MujocoController

/-! ## Definitions: the shallow embedding of controller.py -/

/-- A Python `dict` with `String` keys: an insertion-ordered association list. -/
abbrev Dic (α : Type) : Type := List (String × α)

/-- Dictionary read, `d.get(k)` / `d[k]`. -/
def dlookup {α : Type} : Dic α → String → Option α
  | [], _ => none
  | (k, v) :: rest, key => if k = key then some v else dlookup rest key

/-- Dictionary write `d[k] = v`: replace the value at an existing key in
place (keeping its position), otherwise append the new key at the end —
exactly Python's `dict` assignment semantics. -/
def dset {α : Type} : Dic α → String → α → Dic α
  | [], key, v => [(key, v)]
  | (k, w) :: rest, key, v =>
      if k = key then (key, v) :: rest else (k, w) :: dset rest key v

/-- The key list of a dictionary (Python `list(d.keys())`). -/
def dkeys {α : Type} (d : Dic α) : List String := d.map Prod.fst

/-- Python's `in` test on a dict. -/
def dmem {α : Type} (d : Dic α) (key : String) : Bool := (dlookup d key).isSome

/-- The decimal digit character for `d < 10` (ASCII `'0'` + d). -/
def digitChar (d : ℕ) : Char := Char.ofNat (48 + d)

/-- Decimal digit list of `n`, most significant first; `fuel` bounds the
recursion depth (any `fuel > n` is enough). -/
def idDigits : ℕ → ℕ → List Char
  | 0, _ => []
  | fuel + 1, n =>
      if n < 10 then [digitChar n]
      else idDigits fuel (n / 10) ++ [digitChar (n % 10)]

/-- Python `str(n)` for a natural number `n`. -/
def idString (n : ℕ) : String := ⟨idDigits (n + 1) n⟩

/-- Decimal value of a digit-character list (inverse of `idDigits`). -/
def digitsVal (l : List Char) : ℕ := l.foldl (fun a c => 10 * a + (c.toNat - 48)) 0

/-- The table `TRANSMISSION_TYPES = {'position': 'servo', 'motor': 'motor'}`, read
through `.get(·, None)`. -/
def TRANSMISSION_TYPES : String → Option String
  | "position" => some "servo"
  | "motor" => some "motor"
  | _ => none

/-- The table `SENSING_TYPES = {'framequat': 'gyro', 'distance': 'proximity',
'rangefinder': 'camera'}`, read through `.get(·, None)`. -/
def SENSING_TYPES : String → Option String
  | "framequat" => some "gyro"
  | "distance" => some "proximity"
  | "rangefinder" => some "camera"
  | _ => none

/-- One payload application loop of `action`: for each `(channel, value)`
pair, write the control slot when the channel index is in bounds, else skip
it silently. -/
def applyControls : List (ℕ × ℚ) → List ℚ → List ℚ
  | [], ctrl => ctrl
  | (k, v) :: rest, ctrl =>
      applyControls rest (if k < ctrl.length then ctrl.set k v else ctrl)

/-- The full `action` body: the servo-position payload loop runs first,
then the servo-data payload loop, over the same control array. -/
def action (positionPayload servoPayload : List (ℕ × ℚ)) (ctrl : List ℚ) :
    List ℚ :=
  applyControls servoPayload (applyControls positionPayload ctrl)

/-- Python `s[:-4]`: the string without its last four characters
(empty when `s` has at most four characters). -/
def stripLast4 (s : String) : String := ⟨s.data.take (s.data.length - 4)⟩

/-- The derived descriptor name of a sensor: the declared name with a fixed
4-character suffix stripped when the raw sensor type is `7` (quaternion),
the declared name unchanged otherwise. -/
def deriveSensorName (name : String) (rawType : ℕ) : String :=
  if rawType = 7 then stripLast4 name else name

/-- The initial 20-slot contact-force record. -/
def initForceList : Dic (List ℚ) :=
  (List.range 20).foldl (fun d x => dset d (idString x) [0, 0, 0]) []

/-- One runtime-loop pass of the contact-force sampling loop: store the
three force components of every active contact `i < ncon` at key `str(i)`. -/
def recordContacts (sample : ℕ → ℚ × ℚ × ℚ) (ncon : ℕ)
    (fl : Dic (List ℚ)) : Dic (List ℚ) :=
  (List.range ncon).foldl
    (fun d i => dset d (idString i) [(sample i).1, (sample i).2.1, (sample i).2.2]) fl

structure CapEntry where
  custom_name : String
  feagi_index : ℕ
  max_value : ℚ
  min_value : ℚ
  max_power : ℚ
  rolling_window_len : ℕ
  other : ℕ
deriving DecidableEq

/-- The value of `temp_copy_property_input` / `temp_copy_property_output`
before any device has been processed: the empty Python dict `{}` (its
fields are never read on any reachable path, because the first device of a
category always deep-copies a template record first). -/
def emptyTemp : CapEntry := ⟨"", 0, 0, 0, 0, 0, 0⟩

/-- One discovered sensor: its (already quaternion-normalized) name and the
declared XML tag type recorded in `sensor_information`. -/
structure MjSensorDev where
  name : String
  stype : String
deriving DecidableEq

/-- One discovered actuator: its name, the declared XML tag type and the
scene's declared control range, as recorded in `actuator_information`. -/
structure MjActuatorDev where
  name : String
  atype : String
  range : ℚ × ℚ
deriving DecidableEq

/-- The `capabilities` root container: the `input` (sensor) and `output`
(actuator) sections, each mapping a category name to a mapping from index
string to capability record. -/
structure Capabilities where
  input : Dic (Dic CapEntry)
  output : Dic (Dic CapEntry)
deriving DecidableEq

/-- The mutable state threaded through the two reconciliation loops:
the capability container, the shared `list_to_not_delete_device` seen-set,
the shared running `increment` counter and the current base record
(`temp_copy_property_*`). -/
structure RecState where
  caps : Capabilities
  seen : List String
  increment : ℕ
  temp : CapEntry
deriving DecidableEq

/-- One recorded assignment: the category, the assigned index
(`feagi_index` / `device_id`) and the discovered device's name. -/
structure AssignEvent where
  cat : String
  inc : ℕ
  device : String
deriving DecidableEq

/-- One iteration of the sensor reconciliation loop
(controller.py lines 224-237).  A device whose declared kind has no
`SENSING_TYPES` entry, or whose category is not a key of the `input`
section, is skipped without error (`some (st, [])`).  A missing `"0"`
template record for a first-seen category is Python's `KeyError` (`none`). -/
def sensorStep (st : RecState) (d : MjSensorDev) :
    Option (RecState × List AssignEvent) :=
  match SENSING_TYPES d.stype with
  | none => some (st, [])
  | some device_name =>
    match dlookup st.caps.input device_name with
    | none => some (st, [])
    | some inner =>
        let increment := if device_name ∈ st.seen then st.increment + 1 else 0
        let seen' := if device_name ∈ st.seen then st.seen
          else st.seen ++ [device_name]
        match (if increment = 0 then dlookup inner (idString 0) else some st.temp) with
        | none => none
        | some base =>
            let temp' := { base with custom_name := d.name, feagi_index := increment }
            some ({ caps := { st.caps with
                      input := dset st.caps.input device_name
                        (dset inner (idString increment) temp') },
                    seen := seen', increment := increment, temp := temp' },
                  [{ cat := device_name, inc := increment, device := d.name }])

/-- One iteration of the actuator reconciliation loop
(controller.py lines 242-262): like `sensorStep` over the `output` section
and `TRANSMISSION_TYPES`, but additionally overwriting the kind-specific
limits from the scene's declared control range before stamping the
per-device name and index. -/
def actuatorStep (st : RecState) (d : MjActuatorDev) :
    Option (RecState × List AssignEvent) :=
  match TRANSMISSION_TYPES d.atype with
  | none => some (st, [])
  | some device_name =>
    match dlookup st.caps.output device_name with
    | none => some (st, [])
    | some inner =>
        let increment := if device_name ∈ st.seen then st.increment + 1 else 0
        let seen' := if device_name ∈ st.seen then st.seen
          else st.seen ++ [device_name]
        match (if increment = 0 then dlookup inner (idString 0) else some st.temp) with
        | none => none
        | some base =>
            let base2 :=
              if device_name = "servo" then
                { base with max_value := d.range.2, min_value := d.range.1 }
              else if device_name = "motor" then
                { base with max_power := d.range.2, rolling_window_len := 2 }
              else base
            let temp' := { base2 with custom_name := d.name, feagi_index := increment }
            some ({ caps := { st.caps with
                      output := dset st.caps.output device_name
                        (dset inner (idString increment) temp') },
                    seen := seen', increment := increment, temp := temp' },
                  [{ cat := device_name, inc := increment, device := d.name }])

/-- The full sensor reconciliation loop, also collecting the assignment
events in order. -/
def sensorPass : RecState → List MjSensorDev → Option (RecState × List AssignEvent)
  | st, [] => some (st, [])
  | st, d :: rest =>
      match sensorStep st d with
      | none => none
      | some (st1, evs1) =>
          match sensorPass st1 rest with
          | none => none
          | some (st2, evs2) => some (st2, evs1 ++ evs2)

/-- The full actuator reconciliation loop. -/
def actuatorPass : RecState → List MjActuatorDev → Option (RecState × List AssignEvent)
  | st, [] => some (st, [])
  | st, d :: rest =>
      match actuatorStep st d with
      | none => none
      | some (st1, evs1) =>
          match actuatorPass st1 rest with
          | none => none
          | some (st2, evs2) => some (st2, evs1 ++ evs2)

/-- The pruning loop (controller.py lines 264-268): iterate over a snapshot
of a section and delete every category key that was never marked seen. -/
def pruneSection (sec : Dic (Dic CapEntry)) (seen : List String) :
    Dic (Dic CapEntry) :=
  sec.filter (fun p => decide (p.1 ∈ seen))

/-- The outcome of the whole reconciliation: the pruned capability
container, the final seen-set, and the assignment events of each pass. -/
structure RecOutcome where
  caps : Capabilities
  seen : List String
  sensorEvents : List AssignEvent
  actuatorEvents : List AssignEvent
deriving DecidableEq

/-- The whole reconciliation procedure: the sensor loop (shared seen-set
starts empty, counter at 0, base record `{}`), then the actuator loop
(seen-set carried over, counter re-initialized to 0, fresh `{}` base
record), then the pruning loop over both sections. -/
def reconcile (caps0 : Capabilities) (sds : List MjSensorDev)
    (ads : List MjActuatorDev) : Option RecOutcome :=
  match sensorPass ⟨caps0, [], 0, emptyTemp⟩ sds with
  | none => none
  | some (st1, evs1) =>
      match actuatorPass { st1 with increment := 0, temp := emptyTemp } ads with
      | none => none
      | some (st2, evs2) =>
          some ⟨⟨pruneSection st2.caps.input st2.seen,
                 pruneSection st2.caps.output st2.seen⟩,
                st2.seen, evs1, evs2⟩

/-- Read an entry of a two-level section: `sec[c][i]` through `Option`. -/
def dlookup2 (sec : Dic (Dic CapEntry)) (c i : String) : Option CapEntry :=
  (dlookup sec c).bind (fun inner => dlookup inner i)

/-- The shared-counter indexing discipline actually implemented by the two
reconciliation loops, as a predicate on the assignment-event list of one
loop, parameterized by the seen-set and counter value at loop entry: a
device of an unseen category gets index 0, a device of a seen category gets
the shared counter plus one, and the counter becomes the assigned index. -/
def EventsOk : List String → ℕ → List AssignEvent → Prop
  | _, _, [] => True
  | seen, inc, ev :: rest =>
      (if ev.cat ∈ seen then ev.inc = inc + 1 else ev.inc = 0)
      ∧ EventsOk (if ev.cat ∈ seen then seen else seen ++ [ev.cat]) ev.inc rest

/-- A generic capability-template record; `o` tags the remaining
(non-reconciled) payload so records of different template slots are
distinguishable. -/
def tmplEntry (o : ℕ) : CapEntry := ⟨"template", 9, 50, -50, 60, 5, o⟩

/-- A capability template with the two sensor categories `gyro` and
`proximity` and the two actuator categories `servo` and `motor`, each with
one per-index record `"0"`. -/
def cexCaps : Capabilities :=
  ⟨[("gyro", [("0", tmplEntry 1)]), ("proximity", [("0", tmplEntry 2)])],
   [("servo", [("0", tmplEntry 3)]), ("motor", [("0", tmplEntry 4)])]⟩

/-- Discovered sensors whose categories interleave: gyro, gyro, proximity,
gyro. -/
def cexSensors : List MjSensorDev :=
  [⟨"g1", "framequat"⟩, ⟨"g2", "framequat"⟩, ⟨"p1", "distance"⟩, ⟨"g3", "framequat"⟩]

/-- Discovered actuators whose categories interleave: servo `a`, servo `b`,
motor `m`, servo `c`, with pairwise distinct declared control ranges. -/
def cexActuators : List MjActuatorDev :=
  [⟨"a", "position", (0, 1)⟩, ⟨"b", "position", (2, 3)⟩, ⟨"m", "motor", (4, 5)⟩,
   ⟨"c", "position", (6, 7)⟩]

/-- The initial reconciliation state over the example template. -/
def exInit : RecState := ⟨cexCaps, [], 0, emptyTemp⟩

/-- The record stamped for servo `a` (range (0, 1)) from the servo template. -/
def exEntryA : CapEntry := ⟨"a", 0, 1, 0, 60, 5, 3⟩

/-- The state after the actuator loop processes servo `a` from `exInit`. -/
def exStA : RecState :=
  ⟨⟨[("gyro", [("0", tmplEntry 1)]), ("proximity", [("0", tmplEntry 2)])],
    [("servo", [("0", exEntryA)]), ("motor", [("0", tmplEntry 4)])]⟩,
   ["servo"], 0, exEntryA⟩

/-- The record stamped for motor `m` (range (4, 5)) from the motor template. -/
def exEntryM : CapEntry := ⟨"m", 0, 50, -50, 5, 2, 4⟩

/-- The state after the actuator loop processes servo `a` then motor `m`. -/
def exStM : RecState :=
  ⟨⟨[("gyro", [("0", tmplEntry 1)]), ("proximity", [("0", tmplEntry 2)])],
    [("servo", [("0", exEntryA)]), ("motor", [("0", exEntryM)])]⟩,
   ["servo", "motor"], 0, exEntryM⟩

/-- The record stamped for gyro sensor `g1`. -/
def exEntryG1 : CapEntry := ⟨"g1", 0, 50, -50, 60, 5, 1⟩

/-- The state after the sensor loop processes only gyro sensor `g1`. -/
def exStG0 : RecState :=
  ⟨⟨[("gyro", [("0", exEntryG1)]), ("proximity", [("0", tmplEntry 2)])],
    [("servo", [("0", tmplEntry 3)]), ("motor", [("0", tmplEntry 4)])]⟩,
   ["gyro"], 0, exEntryG1⟩

/-- The record stamped for gyro sensor `g2` (reusing `g1`'s base record). -/
def exEntryG2 : CapEntry := ⟨"g2", 1, 50, -50, 60, 5, 1⟩

/-- The state after the sensor loop processes gyro sensors `g1` and `g2`. -/
def exStG : RecState :=
  ⟨⟨[("gyro", [("0", exEntryG1), ("1", exEntryG2)]), ("proximity", [("0", tmplEntry 2)])],
    [("servo", [("0", tmplEntry 3)]), ("motor", [("0", tmplEntry 4)])]⟩,
   ["gyro"], 1, exEntryG2⟩

/-- The state after the sensor loop saw `g1`, `g2` and the actuator loop
then processes servo `a`. -/
def exStGS : RecState :=
  ⟨⟨[("gyro", [("0", exEntryG1), ("1", exEntryG2)]), ("proximity", [("0", tmplEntry 2)])],
    [("servo", [("0", exEntryA)]), ("motor", [("0", tmplEntry 4)])]⟩,
   ["gyro", "servo"], 0, exEntryA⟩

/-! ## Theorems -/

theorem dlookup_dset_self {α : Type} (d : Dic α) (k : String) (v : α) :
    dlookup (dset d k v) k = some v := by
  induction d with
  | nil => simp [dset, dlookup]
  | cons hd tl ih =>
      obtain ⟨k', w⟩ := hd
      by_cases h : k' = k
      · simp [dset, h, dlookup]
      · simp [dset, h, dlookup, ih]

theorem dlookup_dset_ne {α : Type} (d : Dic α) (k k' : String) (v : α)
    (h : k' ≠ k) : dlookup (dset d k v) k' = dlookup d k' := by
  have h' : ¬ k = k' := fun hh => h hh.symm
  induction d with
  | nil => simp [dset, dlookup, h']
  | cons hd tl ih =>
      obtain ⟨k0, w⟩ := hd
      by_cases h0 : k0 = k
      · subst h0
        simp [dset, dlookup, h']
      · by_cases h1 : k0 = k'
        · simp [dset, dlookup, h0, h1, h]
        · simp [dset, dlookup, h0, h1, ih]

theorem dkeys_dset_of_mem {α : Type} (d : Dic α) (k : String) (v : α)
    (h : (dlookup d k).isSome) : dkeys (dset d k v) = dkeys d := by
  induction d with
  | nil => simp [dlookup] at h
  | cons hd tl ih =>
      obtain ⟨k0, w⟩ := hd
      by_cases h0 : k0 = k
      · simp [dset, h0, dkeys]
      · simp [dlookup, h0] at h
        simp [dset, h0, dkeys] at ih ⊢
        exact ih h

theorem dkeys_dset_of_not_mem {α : Type} (d : Dic α) (k : String) (v : α)
    (h : dlookup d k = none) : dkeys (dset d k v) = dkeys d ++ [k] := by
  induction d with
  | nil => simp [dset, dkeys]
  | cons hd tl ih =>
      obtain ⟨k0, w⟩ := hd
      by_cases h0 : k0 = k
      · simp [dlookup, h0] at h
      · simp [dlookup, h0] at h
        simp [dset, h0, dkeys] at ih ⊢
        exact ih h

theorem dlookup_eq_none_iff {α : Type} (d : Dic α) (k : String) :
    dlookup d k = none ↔ k ∉ dkeys d := by
  induction d with
  | nil => simp [dlookup, dkeys]
  | cons hd tl ih =>
      obtain ⟨k0, w⟩ := hd
      by_cases h0 : k0 = k
      · simp [dlookup, h0, dkeys]
      · have h0' : ¬ k = k0 := fun hh => h0 hh.symm
        simp only [dlookup, h0, if_false, dkeys, List.map_cons, List.mem_cons] at ih ⊢
        rw [ih]
        constructor
        · intro hk hor
          rcases hor with h1 | h1
          · exact h0' h1
          · exact hk h1
        · intro hk h1
          exact hk (Or.inr h1)

theorem dlookup_isSome_iff {α : Type} (d : Dic α) (k : String) :
    (dlookup d k).isSome ↔ k ∈ dkeys d := by
  rw [Option.isSome_iff_ne_none]
  constructor
  · intro h
    by_contra hk
    exact h ((dlookup_eq_none_iff d k).mpr hk)
  · intro h hn
    exact ((dlookup_eq_none_iff d k).mp hn) h

theorem digitsVal_append_single (l : List Char) (c : Char) :
    digitsVal (l ++ [c]) = 10 * digitsVal l + (c.toNat - 48) := by
  simp [digitsVal, List.foldl_append]

theorem digitChar_toNat (d : ℕ) (h : d < 10) : (digitChar d).toNat = 48 + d := by
  interval_cases d <;> decide

theorem digitsVal_idDigits : ∀ fuel n : ℕ, n < fuel → digitsVal (idDigits fuel n) = n := by
  intro fuel
  induction fuel with
  | zero => intro n h; omega
  | succ f ih =>
      intro n h
      by_cases h10 : n < 10
      · simp [idDigits, h10, digitsVal, digitChar_toNat n h10]
      · have hd : n / 10 < n := Nat.div_lt_self (by omega) (by omega)
        have hf : n / 10 < f := by omega
        simp only [idDigits, h10, if_false, digitsVal_append_single, ih (n / 10) hf,
          digitChar_toNat (n % 10) (Nat.mod_lt n (by omega))]
        omega

theorem idString_injective : Function.Injective idString := by
  intro m n h
  have hdig : idDigits (m + 1) m = idDigits (n + 1) n := congrArg String.data h
  have := digitsVal_idDigits (m + 1) m (by omega)
  rw [hdig, digitsVal_idDigits (n + 1) n (by omega)] at this
  omega

theorem applyControls_length (p : List (ℕ × ℚ)) (ctrl : List ℚ) :
    (applyControls p ctrl).length = ctrl.length := by
  induction p generalizing ctrl with
  | nil => rfl
  | cons hd rest ih =>
      obtain ⟨k, v⟩ := hd
      by_cases h : k < ctrl.length
      · simp [applyControls, h, ih]
      · simp [applyControls, h, ih]

theorem applyControls_getElem_not_mem (p : List (ℕ × ℚ)) (ctrl : List ℚ)
    (i : ℕ) (h : i ∉ p.map Prod.fst) :
    (applyControls p ctrl)[i]? = ctrl[i]? := by
  induction p generalizing ctrl with
  | nil => rfl
  | cons hd rest ih =>
      obtain ⟨k, v⟩ := hd
      simp only [List.map_cons, List.mem_cons, not_or] at h
      obtain ⟨hik, hrest⟩ := h
      by_cases hk : k < ctrl.length
      · rw [applyControls, if_pos hk, ih _ hrest,
          List.getElem?_set_ne (fun hh => hik hh.symm)]
      · rw [applyControls, if_neg hk, ih _ hrest]

theorem applyControls_getElem_mem (p : List (ℕ × ℚ)) (ctrl : List ℚ)
    (i : ℕ) (v : ℚ) (hn : (p.map Prod.fst).Nodup) (hm : (i, v) ∈ p)
    (hi : i < ctrl.length) :
    (applyControls p ctrl)[i]? = some v := by
  induction p generalizing ctrl with
  | nil => simp at hm
  | cons hd rest ih =>
      obtain ⟨k, w⟩ := hd
      simp only [List.map_cons, List.nodup_cons] at hn
      obtain ⟨hknot, hrestn⟩ := hn
      rcases List.mem_cons.mp hm with heq | hmem
      · obtain ⟨hik, hvw⟩ := Prod.mk.injEq .. ▸ heq
        subst hik; subst hvw
        have hnot : i ∉ rest.map Prod.fst := hknot
        rw [applyControls, if_pos hi, applyControls_getElem_not_mem _ _ _ hnot]
        simp [List.getElem?_set_self', hi]
      · by_cases hk : k < ctrl.length
        · rw [applyControls, if_pos hk]
          exact ih _ hrestn hmem (by simpa using hi)
        · rw [applyControls, if_neg hk]
          exact ih _ hrestn hmem hi

theorem applyControls_filter_inbounds (L : ℕ) (p : List (ℕ × ℚ)) :
    ∀ ctrl : List ℚ, ctrl.length = L →
      applyControls (p.filter (fun kv => kv.1 < L)) ctrl = applyControls p ctrl := by
  induction p with
  | nil => intro ctrl _; rfl
  | cons hd rest ih =>
      intro ctrl hL
      obtain ⟨k, v⟩ := hd
      by_cases hk : k < L
      · have hk' : k < ctrl.length := hL ▸ hk
        simp only [List.filter_cons, decide_eq_true hk, applyControls, hk', if_true]
        exact ih _ (by simpa using hL)
      · have hk' : ¬ k < ctrl.length := fun hh => hk (hL ▸ hh)
        simp only [List.filter_cons, decide_eq_false hk, applyControls, hk', if_false]
        exact ih _ hL

/-- C6: applying an inbound command payload sets exactly the in-bounds
listed channel slots, leaves every other slot unchanged, and silently
ignores out-of-range channel indices: the control-array length is
preserved, a listed in-bounds channel ends with its payload value,
an unlisted slot keeps its previous value, and dropping the out-of-range
payload entries yields the same result. -/
theorem C6_inbound_payload_application (p : List (ℕ × ℚ)) (ctrl : List ℚ) :
    (applyControls p ctrl).length = ctrl.length
    ∧ (∀ i v, (p.map Prod.fst).Nodup → (i, v) ∈ p → i < ctrl.length →
        (applyControls p ctrl)[i]? = some v)
    ∧ (∀ i, i ∉ p.map Prod.fst → (applyControls p ctrl)[i]? = ctrl[i]?)
    ∧ applyControls (p.filter (fun kv => kv.1 < ctrl.length)) ctrl
        = applyControls p ctrl :=
  ⟨applyControls_length p ctrl,
   fun i v hn hm hi => applyControls_getElem_mem p ctrl i v hn hm hi,
   fun i h => applyControls_getElem_not_mem p ctrl i h,
   applyControls_filter_inbounds ctrl.length p ctrl rfl⟩

/-- Witness for C6 at the claim's example: payload `{0: 0.5, 2: 1.0}` plus
an out-of-range index `5` against a 3-slot control array `[3, 3, 3]`:
slots 0 and 2 are set, slot 1 keeps its value, and index 5 is ignored. -/
theorem C6_inbound_payload_application_witness :
    (applyControls [(0, (1 : ℚ)/2), (2, 1), (5, 4)] [3, 3, 3]).length = 3
    ∧ (applyControls [(0, (1 : ℚ)/2), (2, 1), (5, 4)] [3, 3, 3])[0]? = some (1/2)
    ∧ (applyControls [(0, (1 : ℚ)/2), (2, 1), (5, 4)] [3, 3, 3])[2]? = some 1
    ∧ (applyControls [(0, (1 : ℚ)/2), (2, 1), (5, 4)] [3, 3, 3])[1]? = some 3
    ∧ applyControls
        ([(0, (1 : ℚ)/2), (2, 1), (5, 4)].filter (fun kv => kv.1 < 3)) [3, 3, 3]
        = applyControls [(0, (1 : ℚ)/2), (2, 1), (5, 4)] [3, 3, 3] :=
  ⟨(C6_inbound_payload_application [(0, (1 : ℚ)/2), (2, 1), (5, 4)] [3, 3, 3]).1,
   (C6_inbound_payload_application [(0, (1 : ℚ)/2), (2, 1), (5, 4)] [3, 3, 3]).2.1
     0 (1/2) (by decide) (by simp) (by decide),
   (C6_inbound_payload_application [(0, (1 : ℚ)/2), (2, 1), (5, 4)] [3, 3, 3]).2.1
     2 1 (by decide) (by simp) (by decide),
   ((C6_inbound_payload_application [(0, (1 : ℚ)/2), (2, 1), (5, 4)] [3, 3, 3]).2.2.1
     1 (by decide)).trans rfl,
   (C6_inbound_payload_application [(0, (1 : ℚ)/2), (2, 1), (5, 4)] [3, 3, 3]).2.2.2⟩

/-- C7 counterexample: a quaternion (raw type 7) sensor named
`head_gyro_abcd` yields the descriptor name `head_gyro_` — the code strips
exactly the last four characters, so the underscore remains — not
`head_gyro` as the claim's example asserts. -/
theorem C7_counterexample :
    deriveSensorName "head_gyro_abcd" 7 = "head_gyro_"
    ∧ deriveSensorName "head_gyro_abcd" 7 ≠ "head_gyro" := by decide

/-- C7 (amended): for a sensor whose raw type indicates a multi-component
quaternion (type 7), the derived descriptor name is the declared name with
its last four characters stripped; in particular appending any 4-character
component suffix to a base name and deriving recovers the base name, so the
example `head_gyro_abcd` yields `head_gyro_` (not `head_gyro`). -/
theorem C7_quaternion_name_strip (base suffix : String)
    (h : suffix.data.length = 4) :
    deriveSensorName (base ++ suffix) 7 = base := by
  have hdata : (base ++ suffix).data = base.data ++ suffix.data := by
    cases base; cases suffix; rfl
  have hlen : (base.data ++ suffix.data).length - 4 = base.data.length := by
    simp [h]
  rw [deriveSensorName, if_pos rfl, stripLast4, hdata, hlen]
  cases base with
  | mk l => simp

/-- Witness for C7 (amended) at the corrected example: the 4-character
suffix `abcd` is stripped from `head_gyro_abcd`, leaving `head_gyro_`. -/
theorem C7_quaternion_name_strip_witness :
    ("abcd" : String).data.length = 4
    ∧ deriveSensorName ("head_gyro_" ++ "abcd") 7 = "head_gyro_" :=
  ⟨by decide, C7_quaternion_name_strip "head_gyro_" "abcd" (by decide)⟩

theorem foldl_dset_range (v g : ℕ → List ℚ) :
    ∀ (n : ℕ) (d : Dic (List ℚ)) (m : ℕ),
      dkeys d = (List.range m).map idString →
      (∀ i, i < m → dlookup d (idString i) = some (g i)) →
      dkeys ((List.range n).foldl (fun d i => dset d (idString i) (v i)) d)
          = (List.range (max m n)).map idString
      ∧ ∀ i, i < max m n →
          dlookup ((List.range n).foldl (fun d i => dset d (idString i) (v i)) d)
            (idString i) = some (if i < n then v i else g i) := by
  intro n
  induction n with
  | zero =>
      intro d m hk hl
      refine ⟨by simpa using hk, ?_⟩
      intro i hi
      simp only [Nat.max_zero] at hi
      simpa using hl i hi
  | succ n ih =>
      intro d m hk hl
      obtain ⟨ihk, ihl⟩ := ih d m hk hl
      set R := (List.range n).foldl (fun d i => dset d (idString i) (v i)) d with hR
      have hstep : (List.range (n + 1)).foldl (fun d i => dset d (idString i) (v i)) d
          = dset R (idString n) (v n) := by
        rw [List.range_succ, List.foldl_append]
        rfl
      have hkeys : dkeys (dset R (idString n) (v n))
          = (List.range (max m (n + 1))).map idString := by
        by_cases hnm : n < m
        · have hmem : idString n ∈ dkeys R := by
            rw [ihk]
            exact List.mem_map_of_mem idString (List.mem_range.mpr (by omega))
          rw [dkeys_dset_of_mem _ _ _ ((dlookup_isSome_iff R (idString n)).mpr hmem), ihk]
          have : max m n = max m (n + 1) := by omega
          rw [this]
        · have hnot : idString n ∉ dkeys R := by
            rw [ihk]
            intro hmem
            obtain ⟨j, hj, hje⟩ := List.mem_map.mp hmem
            have : j = n := idString_injective hje
            subst this
            exact absurd (List.mem_range.mp hj) (by omega)
          rw [dkeys_dset_of_not_mem _ _ _ ((dlookup_eq_none_iff R (idString n)).mpr hnot),
            ihk]
          have h1 : max m n = n := by omega
          have h2 : max m (n + 1) = n + 1 := by omega
          rw [h1, h2]
          simp [List.range_succ]
      constructor
      · rw [hstep]; exact hkeys
      · intro i hi
        rw [hstep]
        by_cases hin : i = n
        · subst hin
          rw [dlookup_dset_self]
          simp
        · have hne : idString i ≠ idString n := fun hh => hin (idString_injective hh)
          rw [dlookup_dset_ne _ _ _ _ hne]
          have hi' : i < max m n := by omega
          rw [ihl i hi']
          by_cases hlt : i < n
          · simp [hlt, show i < n + 1 by omega]
          · simp [hlt, show ¬ i < n + 1 by omega]

/-- C3 counterexample: with 21 simultaneous contacts, contact index 20 —
beyond the 20-slot initial capacity of the force record — IS recorded: the
record simply grows a new key `"20"` (so the record ends with 21 keys),
contradicting the claim that indices beyond capacity are not recorded. -/
theorem C3_counterexample :
    idString 20 ∉ dkeys initForceList
    ∧ dlookup (recordContacts (fun _ => (1, 1, 1)) 21 initForceList)
        (idString 20) = some [1, 1, 1]
    ∧ (dkeys (recordContacts (fun _ => (1, 1, 1)) 21 initForceList)).length = 21 := by
  decide

/-- C3 (amended): the contact-force record starts with exactly 20 zeroed
slots, but the sampling loop is not capacity-limited: after a pass with
`ncon` active contacts the record holds `max 20 ncon` keys, every contact
index `i < ncon` (including indices at and beyond 20) is recorded with its
sampled force components, and unsampled initial slots keep `[0, 0, 0]`;
no error is reported in any case. -/
theorem C3_contact_record_unbounded (sample : ℕ → ℚ × ℚ × ℚ) (ncon : ℕ) :
    dkeys (recordContacts sample ncon initForceList)
        = (List.range (max 20 ncon)).map idString
    ∧ (∀ i, i < ncon →
        dlookup (recordContacts sample ncon initForceList) (idString i)
          = some [(sample i).1, (sample i).2.1, (sample i).2.2])
    ∧ (∀ i, ncon ≤ i → i < 20 →
        dlookup (recordContacts sample ncon initForceList) (idString i)
          = some [0, 0, 0]) := by
  have hinit := foldl_dset_range (fun _ => [0, 0, 0]) (fun _ => [0, 0, 0]) 20 [] 0
    (by simp [dkeys]) (by intro i hi; omega)
  simp only [Nat.max_eq_right (by omega : 0 ≤ 20)] at hinit
  obtain ⟨hik, hil⟩ := hinit
  have hrec := foldl_dset_range
    (fun i => [(sample i).1, (sample i).2.1, (sample i).2.2]) (fun _ => [0, 0, 0])
    ncon initForceList 20 hik (by intro i hi; simpa using hil i hi)
  obtain ⟨hrk, hrl⟩ := hrec
  refine ⟨hrk, ?_, ?_⟩
  · intro i hi
    have := hrl i (by omega)
    simpa [hi] using this
  · intro i hni hi
    have := hrl i (by omega)
    have hlt : ¬ i < ncon := by omega
    simpa [hlt] using this

/-- Witness for C3 (amended) at `ncon = 21`: contact 20 is recorded with
its sampled force, slot 5 keeps its zero initialization when only 3
contacts are active, and the record grows to 21 keys. -/
theorem C3_contact_record_unbounded_witness :
    dkeys (recordContacts (fun _ => (2, 3, 4)) 21 initForceList)
        = (List.range (max 20 21)).map idString
    ∧ dlookup (recordContacts (fun _ => (2, 3, 4)) 21 initForceList)
        (idString 20) = some [2, 3, 4]
    ∧ dlookup (recordContacts (fun _ => (2, 3, 4)) 3 initForceList)
        (idString 5) = some [0, 0, 0] :=
  ⟨(C3_contact_record_unbounded (fun _ => (2, 3, 4)) 21).1,
   (C3_contact_record_unbounded (fun _ => (2, 3, 4)) 21).2.1 20 (by omega),
   (C3_contact_record_unbounded (fun _ => (2, 3, 4)) 3).2.2 5 (by omega) (by omega)⟩

theorem sensorStep_inv (st : RecState) (d : MjSensorDev) (st1 : RecState)
    (evs : List AssignEvent) (h : sensorStep st d = some (st1, evs)) :
    (st1 = st ∧ evs = []) ∨
    (∃ cat inner base,
       SENSING_TYPES d.stype = some cat
       ∧ dlookup st.caps.input cat = some inner
       ∧ st1.increment = (if cat ∈ st.seen then st.increment + 1 else 0)
       ∧ st1.seen = (if cat ∈ st.seen then st.seen else st.seen ++ [cat])
       ∧ ((st1.increment = 0 ∧ dlookup inner (idString 0) = some base)
          ∨ (st1.increment ≠ 0 ∧ base = st.temp))
       ∧ st1.temp = { base with custom_name := d.name, feagi_index := st1.increment }
       ∧ st1.caps = { st.caps with
           input := dset st.caps.input cat (dset inner (idString st1.increment) st1.temp) }
       ∧ evs = [⟨cat, st1.increment, d.name⟩]) := by
  unfold sensorStep at h
  rcases hS : SENSING_TYPES d.stype with _ | cat
  · rw [hS] at h
    simp only [Option.some.injEq, Prod.mk.injEq] at h
    exact Or.inl ⟨h.1.symm, h.2.symm⟩
  · rw [hS] at h
    dsimp only at h
    rcases hI : dlookup st.caps.input cat with _ | inner
    · rw [hI] at h
      try dsimp only at h
      simp only [Option.some.injEq, Prod.mk.injEq] at h
      exact Or.inl ⟨h.1.symm, h.2.symm⟩
    · rw [hI] at h
      dsimp only at h
      by_cases hseen : cat ∈ st.seen
      · simp only [if_pos hseen, if_neg (Nat.succ_ne_zero st.increment)] at h
        simp only [Option.some.injEq, Prod.mk.injEq] at h
        obtain ⟨hst, hev⟩ := h
        subst hst; subst hev
        refine Or.inr ⟨cat, inner, st.temp, rfl, hI, by simp [hseen], by simp [hseen],
          Or.inr ⟨by simp [hseen], rfl⟩, by simp [hseen], by simp [hseen], by simp [hseen]⟩
      · simp only [if_neg hseen, if_true] at h
        rcases hB : dlookup inner (idString 0) with _ | base
        · rw [hB] at h
          simp at h
        · rw [hB] at h
          dsimp only at h
          simp only [Option.some.injEq, Prod.mk.injEq] at h
          obtain ⟨hst, hev⟩ := h
          subst hst; subst hev
          refine Or.inr ⟨cat, inner, base, rfl, hI, by simp [hseen], by simp [hseen],
            Or.inl ⟨by simp [hseen], hB⟩, by simp [hseen], by simp [hseen], by simp [hseen]⟩

theorem actuatorStep_inv (st : RecState) (d : MjActuatorDev) (st1 : RecState)
    (evs : List AssignEvent) (h : actuatorStep st d = some (st1, evs)) :
    (st1 = st ∧ evs = []) ∨
    (∃ cat inner base,
       TRANSMISSION_TYPES d.atype = some cat
       ∧ dlookup st.caps.output cat = some inner
       ∧ st1.increment = (if cat ∈ st.seen then st.increment + 1 else 0)
       ∧ st1.seen = (if cat ∈ st.seen then st.seen else st.seen ++ [cat])
       ∧ ((st1.increment = 0 ∧ dlookup inner (idString 0) = some base)
          ∨ (st1.increment ≠ 0 ∧ base = st.temp))
       ∧ st1.temp = { (if cat = "servo" then
             { base with max_value := d.range.2, min_value := d.range.1 }
           else if cat = "motor" then
             { base with max_power := d.range.2, rolling_window_len := 2 }
           else base) with
           custom_name := d.name, feagi_index := st1.increment }
       ∧ st1.caps = { st.caps with
           output := dset st.caps.output cat (dset inner (idString st1.increment) st1.temp) }
       ∧ evs = [⟨cat, st1.increment, d.name⟩]) := by
  unfold actuatorStep at h
  rcases hS : TRANSMISSION_TYPES d.atype with _ | cat
  · rw [hS] at h
    simp only [Option.some.injEq, Prod.mk.injEq] at h
    exact Or.inl ⟨h.1.symm, h.2.symm⟩
  · rw [hS] at h
    dsimp only at h
    rcases hI : dlookup st.caps.output cat with _ | inner
    · rw [hI] at h
      try dsimp only at h
      simp only [Option.some.injEq, Prod.mk.injEq] at h
      exact Or.inl ⟨h.1.symm, h.2.symm⟩
    · rw [hI] at h
      dsimp only at h
      by_cases hseen : cat ∈ st.seen
      · simp only [if_pos hseen, if_neg (Nat.succ_ne_zero st.increment)] at h
        simp only [Option.some.injEq, Prod.mk.injEq] at h
        obtain ⟨hst, hev⟩ := h
        subst hst; subst hev
        refine Or.inr ⟨cat, inner, st.temp, rfl, hI, by simp [hseen], by simp [hseen],
          Or.inr ⟨by simp [hseen], rfl⟩, by simp [hseen], by simp [hseen], by simp [hseen]⟩
      · simp only [if_neg hseen, if_true] at h
        rcases hB : dlookup inner (idString 0) with _ | base
        · rw [hB] at h
          simp at h
        · rw [hB] at h
          dsimp only at h
          simp only [Option.some.injEq, Prod.mk.injEq] at h
          obtain ⟨hst, hev⟩ := h
          subst hst; subst hev
          refine Or.inr ⟨cat, inner, base, rfl, hI, by simp [hseen], by simp [hseen],
            Or.inl ⟨by simp [hseen], hB⟩, by simp [hseen], by simp [hseen], by simp [hseen]⟩

/-- C9: a discovered device whose declared kind has no entry in the fixed
kind-to-category lookup table, or whose mapped category has no entry in the
corresponding section of the capability template, is dropped silently: the
step returns successfully (no error) with the reconciliation state
completely unchanged and no assignment recorded, for the sensor loop and
the actuator loop alike. -/
theorem C9_unmapped_device_skipped (st : RecState) :
    (∀ d : MjSensorDev,
        (∀ c, SENSING_TYPES d.stype = some c → dlookup st.caps.input c = none) →
        sensorStep st d = some (st, []))
    ∧ (∀ d : MjActuatorDev,
        (∀ c, TRANSMISSION_TYPES d.atype = some c → dlookup st.caps.output c = none) →
        actuatorStep st d = some (st, [])) := by
  constructor
  · intro d hd
    unfold sensorStep
    rcases hS : SENSING_TYPES d.stype with _ | cat
    · rfl
    · dsimp only
      rw [hd cat hS]
  · intro d hd
    unfold actuatorStep
    rcases hS : TRANSMISSION_TYPES d.atype with _ | cat
    · rfl
    · dsimp only
      rw [hd cat hS]

/-- Witness for C9: a sensor of declared kind `rangefinder` maps to category
`camera`, which the template below lacks, and an actuator of declared kind
`adhesion` has no lookup-table entry; both are skipped with the state
unchanged. -/
theorem C9_unmapped_device_skipped_witness :
    sensorStep ⟨⟨[("gyro", [("0", emptyTemp)])], [("servo", [("0", emptyTemp)])]⟩,
        [], 0, emptyTemp⟩ ⟨"cam0", "rangefinder"⟩
      = some (⟨⟨[("gyro", [("0", emptyTemp)])], [("servo", [("0", emptyTemp)])]⟩,
        [], 0, emptyTemp⟩, [])
    ∧ actuatorStep ⟨⟨[("gyro", [("0", emptyTemp)])], [("servo", [("0", emptyTemp)])]⟩,
        [], 0, emptyTemp⟩ ⟨"glue0", "adhesion", (0, 1)⟩
      = some (⟨⟨[("gyro", [("0", emptyTemp)])], [("servo", [("0", emptyTemp)])]⟩,
        [], 0, emptyTemp⟩, []) :=
  ⟨(C9_unmapped_device_skipped _).1 ⟨"cam0", "rangefinder"⟩ (by decide),
   (C9_unmapped_device_skipped _).2 ⟨"glue0", "adhesion", (0, 1)⟩ (by decide)⟩

/-- C8: when a device is recorded, the entry stored at its category and
assigned index is the current base record with exactly the per-device
fields overwritten: for assigned index 0 the base record is the template's
entry at index `"0"` of that category (freshly copied), and for assigned
index > 0 the base record is the running `temp` record left by the
previously recorded device; only the custom name, the assigned index and —
in the actuator loop — the kind-specific limit fields change, every other
field of the base record being carried over unchanged. -/
theorem C8_base_record_copy_and_reuse (st : RecState) :
    (∀ (d : MjSensorDev) (st1 : RecState) (ev : AssignEvent),
      sensorStep st d = some (st1, [ev]) →
      dlookup2 st1.caps.input ev.cat (idString ev.inc) = some st1.temp
      ∧ st1.temp.custom_name = d.name
      ∧ st1.temp.feagi_index = ev.inc
      ∧ (ev.inc = 0 → ∃ e0, dlookup2 st.caps.input ev.cat (idString 0) = some e0
          ∧ st1.temp.max_value = e0.max_value ∧ st1.temp.min_value = e0.min_value
          ∧ st1.temp.max_power = e0.max_power
          ∧ st1.temp.rolling_window_len = e0.rolling_window_len
          ∧ st1.temp.other = e0.other)
      ∧ (ev.inc ≠ 0 →
          st1.temp.max_value = st.temp.max_value
          ∧ st1.temp.min_value = st.temp.min_value
          ∧ st1.temp.max_power = st.temp.max_power
          ∧ st1.temp.rolling_window_len = st.temp.rolling_window_len
          ∧ st1.temp.other = st.temp.other))
    ∧ (∀ (d : MjActuatorDev) (st1 : RecState) (ev : AssignEvent),
      actuatorStep st d = some (st1, [ev]) →
      dlookup2 st1.caps.output ev.cat (idString ev.inc) = some st1.temp
      ∧ st1.temp.custom_name = d.name
      ∧ st1.temp.feagi_index = ev.inc
      ∧ (ev.inc = 0 → ∃ e0, dlookup2 st.caps.output ev.cat (idString 0) = some e0
          ∧ st1.temp.other = e0.other
          ∧ (ev.cat = "servo" →
              st1.temp.max_power = e0.max_power
              ∧ st1.temp.rolling_window_len = e0.rolling_window_len
              ∧ st1.temp.max_value = d.range.2 ∧ st1.temp.min_value = d.range.1)
          ∧ (ev.cat = "motor" →
              st1.temp.max_value = e0.max_value ∧ st1.temp.min_value = e0.min_value
              ∧ st1.temp.max_power = d.range.2 ∧ st1.temp.rolling_window_len = 2))
      ∧ (ev.inc ≠ 0 →
          st1.temp.other = st.temp.other
          ∧ (ev.cat = "servo" →
              st1.temp.max_power = st.temp.max_power
              ∧ st1.temp.rolling_window_len = st.temp.rolling_window_len
              ∧ st1.temp.max_value = d.range.2 ∧ st1.temp.min_value = d.range.1)
          ∧ (ev.cat = "motor" →
              st1.temp.max_value = st.temp.max_value
              ∧ st1.temp.min_value = st.temp.min_value
              ∧ st1.temp.max_power = d.range.2 ∧ st1.temp.rolling_window_len = 2))) := by
  constructor
  · intro d st1 ev h
    rcases sensorStep_inv st d st1 [ev] h with ⟨_, hev⟩ | ⟨cat, inner, base, hS, hI,
        hinc, hseen, hbase, htemp, hcaps, hev⟩
    · exact absurd hev (by simp)
    · have hevc : ev = ⟨cat, st1.increment, d.name⟩ := by
        simpa using hev
      subst hevc
      refine ⟨?_, by rw [htemp], by rw [htemp], ?_, ?_⟩
      · rw [hcaps]
        unfold dlookup2
        simp only [dlookup_dset_self, Option.bind_eq_bind, Option.some_bind]
      · intro h0
        dsimp only at h0
        rcases hbase with ⟨_, hb⟩ | ⟨hne, _⟩
        · refine ⟨base, ?_, by rw [htemp], by rw [htemp], by rw [htemp],
            by rw [htemp], by rw [htemp]⟩
          unfold dlookup2
          rw [hI]
          simpa [h0] using hb
        · exact absurd h0 hne
      · intro h0
        dsimp only at h0
        rcases hbase with ⟨hz, _⟩ | ⟨_, hb⟩
        · exact absurd hz h0
        · subst hb
          exact ⟨by rw [htemp], by rw [htemp], by rw [htemp], by rw [htemp], by rw [htemp]⟩
  · intro d st1 ev h
    rcases actuatorStep_inv st d st1 [ev] h with ⟨_, hev⟩ | ⟨cat, inner, base, hS, hI,
        hinc, hseen, hbase, htemp, hcaps, hev⟩
    · exact absurd hev (by simp)
    · have hevc : ev = ⟨cat, st1.increment, d.name⟩ := by
        simpa using hev
      subst hevc
      refine ⟨?_, by rw [htemp], by rw [htemp], ?_, ?_⟩
      · rw [hcaps]
        unfold dlookup2
        simp only [dlookup_dset_self, Option.bind_eq_bind, Option.some_bind]
      · intro h0
        dsimp only at h0
        rcases hbase with ⟨_, hb⟩ | ⟨hne, _⟩
        · refine ⟨base, ?_, ?_, ?_, ?_⟩
          · unfold dlookup2
            rw [hI]
            simpa [h0] using hb
          · by_cases hsv : cat = "servo"
            · rw [htemp]; simp [hsv]
            · by_cases hmt : cat = "motor"
              · rw [htemp]; simp [hsv, hmt]
              · rw [htemp]; simp [hsv, hmt]
          · intro hsv
            dsimp only at hsv
            rw [htemp]; simp [hsv]
          · intro hmt
            dsimp only at hmt
            have hsv : cat ≠ "servo" := by rw [hmt]; decide
            rw [htemp]; simp [hmt, if_neg hsv]
        · exact absurd h0 hne
      · intro h0
        dsimp only at h0
        rcases hbase with ⟨hz, _⟩ | ⟨_, hb⟩
        · exact absurd hz h0
        · subst hb
          refine ⟨?_, ?_, ?_⟩
          · by_cases hsv : cat = "servo"
            · rw [htemp]; simp [hsv]
            · by_cases hmt : cat = "motor"
              · rw [htemp]; simp [hsv, hmt]
              · rw [htemp]; simp [hsv, hmt]
          · intro hsv
            dsimp only at hsv
            rw [htemp]; simp [hsv]
          · intro hmt
            dsimp only at hmt
            have hsv : cat ≠ "servo" := by rw [hmt]; decide
            rw [htemp]; simp [hmt, if_neg hsv]

theorem sensorPass_facts : ∀ (ds : List MjSensorDev) (st st' : RecState)
    (evs : List AssignEvent), sensorPass st ds = some (st', evs) →
    dkeys st'.caps.input = dkeys st.caps.input
    ∧ st'.caps.output = st.caps.output
    ∧ (∀ c, c ∈ st.seen → c ∈ st'.seen)
    ∧ (∀ c, c ∈ st'.seen → c ∈ st.seen ∨ ∃ d ∈ ds, SENSING_TYPES d.stype = some c)
    ∧ EventsOk st.seen st.increment evs := by
  intro ds
  induction ds with
  | nil =>
      intro st st' evs h
      simp only [sensorPass, Option.some.injEq, Prod.mk.injEq] at h
      obtain ⟨h1, h2⟩ := h
      subst h1; subst h2
      exact ⟨rfl, rfl, fun c hc => hc, fun c hc => Or.inl hc, trivial⟩
  | cons d rest ih =>
      intro st st' evs h
      rw [sensorPass] at h
      rcases hstep : sensorStep st d with _ | p
      · rw [hstep] at h
        simp at h
      · obtain ⟨st1, evs1⟩ := p
        rw [hstep] at h
        dsimp only at h
        rcases hpass : sensorPass st1 rest with _ | q
        · rw [hpass] at h
          simp at h
        · obtain ⟨st2, evs2⟩ := q
          rw [hpass] at h
          dsimp only at h
          simp only [Option.some.injEq, Prod.mk.injEq] at h
          obtain ⟨h1, h2⟩ := h
          subst h1; subst h2
          obtain ⟨ik, io, imono, iorig, iev⟩ := ih st1 st2 evs2 hpass
          rcases sensorStep_inv st d st1 evs1 hstep with ⟨hst, hev⟩ | ⟨cat, inner, base,
              hS, hI, hinc, hseen, hbase, htemp, hcaps, hev⟩
          · subst hst; subst hev
            refine ⟨ik, io, imono, ?_, by simpa using iev⟩
            intro c hc
            rcases iorig c hc with hin | ⟨d', hd', hdd⟩
            · exact Or.inl hin
            · exact Or.inr ⟨d', List.mem_cons_of_mem _ hd', hdd⟩
          · subst hev
            have hk1 : dkeys st1.caps.input = dkeys st.caps.input := by
              rw [hcaps]
              exact dkeys_dset_of_mem _ _ _ (by rw [hI]; rfl)
            have ho1 : st1.caps.output = st.caps.output := by rw [hcaps]
            have hm1 : ∀ c, c ∈ st.seen → c ∈ st1.seen := by
              intro c hc
              rw [hseen]
              by_cases hmem : cat ∈ st.seen
              · simpa [hmem] using hc
              · simp only [if_neg hmem]
                exact List.mem_append_left _ hc
            have hs1 : ∀ c, c ∈ st1.seen → c ∈ st.seen ∨ c = cat := by
              intro c hc
              rw [hseen] at hc
              by_cases hmem : cat ∈ st.seen
              · exact Or.inl (by simpa [hmem] using hc)
              · simp only [if_neg hmem] at hc
                rcases List.mem_append.mp hc with hc1 | hc1
                · exact Or.inl hc1
                · exact Or.inr (by simpa using hc1)
            refine ⟨ik.trans hk1, io.trans ho1, fun c hc => imono c (hm1 c hc), ?_, ?_⟩
            · intro c hc
              rcases iorig c hc with hin | ⟨d', hd', hdd⟩
              · rcases hs1 c hin with hin' | hceq
                · exact Or.inl hin'
                · exact Or.inr ⟨d, List.mem_cons_self d rest, hceq ▸ hS⟩
              · exact Or.inr ⟨d', List.mem_cons_of_mem _ hd', hdd⟩
            · refine ⟨?_, ?_⟩
              · dsimp only
                by_cases hmem : cat ∈ st.seen
                · rw [if_pos hmem, hinc, if_pos hmem]
                · rw [if_neg hmem, hinc, if_neg hmem]
              · dsimp only
                rw [← hseen]
                exact iev

theorem actuatorPass_facts : ∀ (ds : List MjActuatorDev) (st st' : RecState)
    (evs : List AssignEvent), actuatorPass st ds = some (st', evs) →
    dkeys st'.caps.output = dkeys st.caps.output
    ∧ st'.caps.input = st.caps.input
    ∧ (∀ c, c ∈ st.seen → c ∈ st'.seen)
    ∧ (∀ c, c ∈ st'.seen → c ∈ st.seen ∨ ∃ d ∈ ds, TRANSMISSION_TYPES d.atype = some c)
    ∧ EventsOk st.seen st.increment evs := by
  intro ds
  induction ds with
  | nil =>
      intro st st' evs h
      simp only [actuatorPass, Option.some.injEq, Prod.mk.injEq] at h
      obtain ⟨h1, h2⟩ := h
      subst h1; subst h2
      exact ⟨rfl, rfl, fun c hc => hc, fun c hc => Or.inl hc, trivial⟩
  | cons d rest ih =>
      intro st st' evs h
      rw [actuatorPass] at h
      rcases hstep : actuatorStep st d with _ | p
      · rw [hstep] at h
        simp at h
      · obtain ⟨st1, evs1⟩ := p
        rw [hstep] at h
        dsimp only at h
        rcases hpass : actuatorPass st1 rest with _ | q
        · rw [hpass] at h
          simp at h
        · obtain ⟨st2, evs2⟩ := q
          rw [hpass] at h
          dsimp only at h
          simp only [Option.some.injEq, Prod.mk.injEq] at h
          obtain ⟨h1, h2⟩ := h
          subst h1; subst h2
          obtain ⟨ik, io, imono, iorig, iev⟩ := ih st1 st2 evs2 hpass
          rcases actuatorStep_inv st d st1 evs1 hstep with ⟨hst, hev⟩ | ⟨cat, inner, base,
              hS, hI, hinc, hseen, hbase, htemp, hcaps, hev⟩
          · subst hst; subst hev
            refine ⟨ik, io, imono, ?_, by simpa using iev⟩
            intro c hc
            rcases iorig c hc with hin | ⟨d', hd', hdd⟩
            · exact Or.inl hin
            · exact Or.inr ⟨d', List.mem_cons_of_mem _ hd', hdd⟩
          · subst hev
            have hk1 : dkeys st1.caps.output = dkeys st.caps.output := by
              rw [hcaps]
              exact dkeys_dset_of_mem _ _ _ (by rw [hI]; rfl)
            have ho1 : st1.caps.input = st.caps.input := by rw [hcaps]
            have hm1 : ∀ c, c ∈ st.seen → c ∈ st1.seen := by
              intro c hc
              rw [hseen]
              by_cases hmem : cat ∈ st.seen
              · simpa [hmem] using hc
              · simp only [if_neg hmem]
                exact List.mem_append_left _ hc
            have hs1 : ∀ c, c ∈ st1.seen → c ∈ st.seen ∨ c = cat := by
              intro c hc
              rw [hseen] at hc
              by_cases hmem : cat ∈ st.seen
              · exact Or.inl (by simpa [hmem] using hc)
              · simp only [if_neg hmem] at hc
                rcases List.mem_append.mp hc with hc1 | hc1
                · exact Or.inl hc1
                · exact Or.inr (by simpa using hc1)
            refine ⟨ik.trans hk1, io.trans ho1, fun c hc => imono c (hm1 c hc), ?_, ?_⟩
            · intro c hc
              rcases iorig c hc with hin | ⟨d', hd', hdd⟩
              · rcases hs1 c hin with hin' | hceq
                · exact Or.inl hin'
                · exact Or.inr ⟨d, List.mem_cons_self d rest, hceq ▸ hS⟩
              · exact Or.inr ⟨d', List.mem_cons_of_mem _ hd', hdd⟩
            · refine ⟨?_, ?_⟩
              · dsimp only
                by_cases hmem : cat ∈ st.seen
                · rw [if_pos hmem, hinc, if_pos hmem]
                · rw [if_neg hmem, hinc, if_neg hmem]
              · dsimp only
                rw [← hseen]
                exact iev

theorem actuatorPass_preserve : ∀ (ds : List MjActuatorDev) (st st' : RecState)
    (evs : List AssignEvent), actuatorPass st ds = some (st', evs) →
    ∀ c i, (∀ ev ∈ evs, ¬(ev.cat = c ∧ idString ev.inc = i)) →
    dlookup2 st'.caps.output c i = dlookup2 st.caps.output c i := by
  intro ds
  induction ds with
  | nil =>
      intro st st' evs h c i _
      simp only [actuatorPass, Option.some.injEq, Prod.mk.injEq] at h
      obtain ⟨h1, h2⟩ := h
      subst h1
      rfl
  | cons d rest ih =>
      intro st st' evs h c i hno
      rw [actuatorPass] at h
      rcases hstep : actuatorStep st d with _ | p
      · rw [hstep] at h
        simp at h
      · obtain ⟨st1, evs1⟩ := p
        rw [hstep] at h
        dsimp only at h
        rcases hpass : actuatorPass st1 rest with _ | q
        · rw [hpass] at h
          simp at h
        · obtain ⟨st2, evs2⟩ := q
          rw [hpass] at h
          dsimp only at h
          simp only [Option.some.injEq, Prod.mk.injEq] at h
          obtain ⟨h1, h2⟩ := h
          subst h1; subst h2
          rcases actuatorStep_inv st d st1 evs1 hstep with ⟨hst, hev⟩ | ⟨cat, inner, base,
              hS, hI, hinc, hseen, hbase, htemp, hcaps, hev⟩
          · subst hst; subst hev
            exact ih st1 st2 evs2 hpass c i (by simpa using hno)
          · subst hev
            have hnoTail : ∀ ev ∈ evs2, ¬(ev.cat = c ∧ idString ev.inc = i) := by
              intro ev hev'
              exact hno ev (List.mem_append_right _ hev')
            have hnoHead : ¬(cat = c ∧ idString st1.increment = i) := by
              have := hno ⟨cat, st1.increment, d.name⟩
                (List.mem_append_left _ (List.mem_singleton_self _))
              simpa using this
            rw [ih st1 st2 evs2 hpass c i hnoTail]
            rw [hcaps]
            unfold dlookup2
            by_cases hc : cat = c
            · subst hc
              have hii : i ≠ idString st1.increment := fun hh => hnoHead ⟨rfl, hh.symm⟩
              dsimp only
              rw [dlookup_dset_self, hI]
              simp only [Option.some_bind]
              exact dlookup_dset_ne inner (idString st1.increment) i st1.temp hii
            · dsimp only
              rw [dlookup_dset_ne st.caps.output cat c _ (fun hh => hc hh.symm)]

theorem dlookup_pruneSection_of_mem (sec : Dic (Dic CapEntry)) (seen : List String)
    (c : String) (h : c ∈ seen) :
    dlookup (pruneSection sec seen) c = dlookup sec c := by
  induction sec with
  | nil => rfl
  | cons hd tl ih =>
      obtain ⟨k, v⟩ := hd
      by_cases hk : k ∈ seen
      · simp only [pruneSection, List.filter_cons, decide_eq_true hk, if_true] at ih ⊢
        by_cases hkc : k = c
        · simp [dlookup, hkc]
        · simpa [dlookup, hkc] using ih
      · have hkc : k ≠ c := fun hh => hk (hh ▸ h)
        simp only [pruneSection, List.filter_cons, decide_eq_false hk, Bool.false_eq_true, if_false] at ih ⊢
        rw [ih]
        simp [dlookup, hkc]

theorem mem_dkeys_pruneSection (sec : Dic (Dic CapEntry)) (seen : List String)
    (c : String) (h : c ∈ dkeys (pruneSection sec seen)) : c ∈ seen := by
  induction sec with
  | nil => simp [pruneSection, dkeys] at h
  | cons hd tl ih =>
      obtain ⟨k, v⟩ := hd
      by_cases hk : k ∈ seen
      · simp only [pruneSection, List.filter_cons, decide_eq_true hk, if_true,
          dkeys, List.map_cons, List.mem_cons] at h ih
        rcases h with hck | h
        · exact hck ▸ hk
        · exact ih h
      · simp only [pruneSection, List.filter_cons, decide_eq_false hk, Bool.false_eq_true, if_false] at h ih
        exact ih h

theorem dkeys_pruneSection_subset (sec : Dic (Dic CapEntry)) (seen : List String)
    (c : String) (h : c ∈ dkeys (pruneSection sec seen)) : c ∈ dkeys sec := by
  obtain ⟨p, hp, hpc⟩ := List.mem_map.mp h
  exact List.mem_map.mpr ⟨p, List.mem_of_mem_filter hp, hpc⟩

theorem reconcile_inv (caps0 : Capabilities) (sds : List MjSensorDev)
    (ads : List MjActuatorDev) (r : RecOutcome)
    (h : reconcile caps0 sds ads = some r) :
    ∃ st1 evs1 st2 evs2,
      sensorPass ⟨caps0, [], 0, emptyTemp⟩ sds = some (st1, evs1)
      ∧ actuatorPass { st1 with increment := 0, temp := emptyTemp } ads = some (st2, evs2)
      ∧ r = ⟨⟨pruneSection st2.caps.input st2.seen, pruneSection st2.caps.output st2.seen⟩,
             st2.seen, evs1, evs2⟩ := by
  unfold reconcile at h
  rcases hs : sensorPass ⟨caps0, [], 0, emptyTemp⟩ sds with _ | p
  · rw [hs] at h
    simp at h
  · obtain ⟨st1, evs1⟩ := p
    rw [hs] at h
    dsimp only at h
    rcases ha : actuatorPass { st1 with increment := 0, temp := emptyTemp } ads with _ | q
    · rw [ha] at h
      simp at h
    · obtain ⟨st2, evs2⟩ := q
      rw [ha] at h
      dsimp only at h
      simp only [Option.some.injEq] at h
      exact ⟨st1, evs1, st2, evs2, rfl, ha, h.symm⟩

/-- C10: reconciliation never invents a category: every category key of the
final capability container's input (resp. output) section was already a key
of the template's input (resp. output) section, because a discovered device
is only recorded when its mapped category already exists in that section
and pruning only deletes keys. -/
theorem C10_no_new_category_keys (caps0 : Capabilities) (sds : List MjSensorDev)
    (ads : List MjActuatorDev) (r : RecOutcome)
    (h : reconcile caps0 sds ads = some r) :
    (∀ c, c ∈ dkeys r.caps.input → c ∈ dkeys caps0.input)
    ∧ (∀ c, c ∈ dkeys r.caps.output → c ∈ dkeys caps0.output) := by
  obtain ⟨st1, evs1, st2, evs2, hs, ha, hr⟩ := reconcile_inv caps0 sds ads r h
  obtain ⟨sik, sio, _, _, _⟩ := sensorPass_facts sds _ st1 evs1 hs
  obtain ⟨aik, aio, _, _, _⟩ := actuatorPass_facts ads _ st2 evs2 ha
  have sik' : dkeys st1.caps.input = dkeys caps0.input := sik
  have sio' : st1.caps.output = caps0.output := sio
  have aik' : dkeys st2.caps.output = dkeys st1.caps.output := aik
  have aio' : st2.caps.input = st1.caps.input := aio
  subst hr
  constructor
  · intro c hc
    have h1 : c ∈ dkeys st2.caps.input := dkeys_pruneSection_subset _ _ c hc
    rw [aio', sik'] at h1
    exact h1
  · intro c hc
    have h1 : c ∈ dkeys st2.caps.output := dkeys_pruneSection_subset _ _ c hc
    rw [aik', sio'] at h1
    exact h1

/-- Witness for C10 on a one-sensor scene: the only surviving category key
`gyro` was already a template key. -/
theorem C10_no_new_category_keys_witness :
    reconcile cexCaps [⟨"g1", "framequat"⟩] []
      = some ⟨⟨[("gyro", [("0", exEntryG1)])], []⟩, ["gyro"], [⟨"gyro", 0, "g1"⟩], []⟩
    ∧ "gyro" ∈ dkeys cexCaps.input :=
  ⟨by decide,
   (C10_no_new_category_keys cexCaps [⟨"g1", "framequat"⟩] []
      ⟨⟨[("gyro", [("0", exEntryG1)])], []⟩, ["gyro"], [⟨"gyro", 0, "g1"⟩], []⟩
      (by decide)).1 "gyro" (by decide)⟩

/-- C2: a template category with zero discovered devices is never marked
seen and is deleted from both the input and the output section by the
pruning loop, so it never appears in the final capability container. -/
theorem C2_zero_device_category_pruned (caps0 : Capabilities)
    (sds : List MjSensorDev) (ads : List MjActuatorDev) (r : RecOutcome) (c : String)
    (h : reconcile caps0 sds ads = some r)
    (hs : ∀ d ∈ sds, SENSING_TYPES d.stype ≠ some c)
    (ha : ∀ d ∈ ads, TRANSMISSION_TYPES d.atype ≠ some c) :
    c ∉ r.seen ∧ c ∉ dkeys r.caps.input ∧ c ∉ dkeys r.caps.output := by
  obtain ⟨st1, evs1, st2, evs2, hps, hpa, hr⟩ := reconcile_inv caps0 sds ads r h
  obtain ⟨_, _, _, sorig, _⟩ := sensorPass_facts sds _ st1 evs1 hps
  obtain ⟨_, _, _, aorig, _⟩ := actuatorPass_facts ads _ st2 evs2 hpa
  have hseen : c ∉ st2.seen := by
    intro hc
    rcases aorig c hc with hin | ⟨d', hd', hdd⟩
    · have hin' : c ∈ st1.seen := hin
      rcases sorig c hin' with hin2 | ⟨d', hd', hdd⟩
      · simp at hin2
      · exact hs d' hd' hdd
    · exact ha d' hd' hdd
  subst hr
  refine ⟨hseen, ?_, ?_⟩
  · intro hc
    exact hseen (mem_dkeys_pruneSection _ _ c hc)
  · intro hc
    exact hseen (mem_dkeys_pruneSection _ _ c hc)

/-- Witness for C2: with only a gyro sensor discovered, the categories
`proximity`, `servo` and `motor` all disappear from the final container. -/
theorem C2_zero_device_category_pruned_witness :
    reconcile cexCaps [⟨"g1", "framequat"⟩] []
      = some ⟨⟨[("gyro", [("0", exEntryG1)])], []⟩, ["gyro"], [⟨"gyro", 0, "g1"⟩], []⟩
    ∧ "servo" ∉ (["gyro"] : List String)
    ∧ "servo" ∉ dkeys ([("gyro", [("0", exEntryG1)])] : Dic (Dic CapEntry))
    ∧ "servo" ∉ dkeys (([] : Dic (Dic CapEntry))) := by
  have happ := C2_zero_device_category_pruned cexCaps [⟨"g1", "framequat"⟩] []
    ⟨⟨[("gyro", [("0", exEntryG1)])], []⟩, ["gyro"], [⟨"gyro", 0, "g1"⟩], []⟩ "servo"
    (by decide) (by decide) (by decide)
  exact ⟨by decide, happ.1, happ.2.1, happ.2.2⟩

/-- C4: every per-index capability record present in the final container
(in either section) belongs to a category for which at least one scene
device was discovered (a sensor or an actuator mapping to that category). -/
theorem C4_final_entry_has_device (caps0 : Capabilities) (sds : List MjSensorDev)
    (ads : List MjActuatorDev) (r : RecOutcome)
    (h : reconcile caps0 sds ads = some r) :
    ∀ c i e, (dlookup2 r.caps.input c i = some e ∨ dlookup2 r.caps.output c i = some e) →
      (∃ d ∈ sds, SENSING_TYPES d.stype = some c)
      ∨ (∃ d ∈ ads, TRANSMISSION_TYPES d.atype = some c) := by
  obtain ⟨st1, evs1, st2, evs2, hps, hpa, hr⟩ := reconcile_inv caps0 sds ads r h
  obtain ⟨_, _, _, sorig, _⟩ := sensorPass_facts sds _ st1 evs1 hps
  obtain ⟨_, _, smono, aorig, _⟩ := actuatorPass_facts ads _ st2 evs2 hpa
  subst hr
  intro c i e hen
  have hcseen : c ∈ st2.seen := by
    rcases hen with hin | hin
    · unfold dlookup2 at hin
      rcases hl : dlookup (pruneSection st2.caps.input st2.seen) c with _ | inner
      · rw [hl] at hin
        simp at hin
      · exact mem_dkeys_pruneSection _ _ c
          ((dlookup_isSome_iff _ c).mp (by rw [hl]; rfl))
    · unfold dlookup2 at hin
      rcases hl : dlookup (pruneSection st2.caps.output st2.seen) c with _ | inner
      · rw [hl] at hin
        simp at hin
      · exact mem_dkeys_pruneSection _ _ c
          ((dlookup_isSome_iff _ c).mp (by rw [hl]; rfl))
  rcases aorig c hcseen with hin | ⟨d', hd', hdd⟩
  · have hin' : c ∈ st1.seen := hin
    rcases sorig c hin' with hin2 | ⟨d', hd', hdd⟩
    · simp at hin2
    · exact Or.inl ⟨d', hd', hdd⟩
  · exact Or.inr ⟨d', hd', hdd⟩

/-- Witness for C4: the surviving gyro record at index `"0"` corresponds to
the discovered gyro sensor `g1`. -/
theorem C4_final_entry_has_device_witness :
    reconcile cexCaps [⟨"g1", "framequat"⟩] []
      = some ⟨⟨[("gyro", [("0", exEntryG1)])], []⟩, ["gyro"], [⟨"gyro", 0, "g1"⟩], []⟩
    ∧ ((∃ d ∈ [(⟨"g1", "framequat"⟩ : MjSensorDev)], SENSING_TYPES d.stype = some "gyro")
       ∨ (∃ d ∈ ([] : List MjActuatorDev), TRANSMISSION_TYPES d.atype = some "gyro")) :=
  ⟨by decide,
   C4_final_entry_has_device cexCaps [⟨"g1", "framequat"⟩] []
     ⟨⟨[("gyro", [("0", exEntryG1)])], []⟩, ["gyro"], [⟨"gyro", 0, "g1"⟩], []⟩
     (by decide) "gyro" "0" exEntryG1 (Or.inl (by decide))⟩

/-- C1 counterexample: on the interleaved scene gyro, gyro, proximity,
gyro the three gyro devices are assigned indices 0, 1, 1 — not 0, 1, 2 —
because the proximity device in between reset the single shared counter.
The claimed per-category index sequence 0, 1, 2, ... therefore fails. -/
theorem C1_counterexample :
    ((reconcile cexCaps cexSensors []).map
        (fun r => (r.sensorEvents.filter (fun ev => ev.cat = "gyro")).map
          AssignEvent.inc))
      = some [0, 1, 1]
    ∧ ([0, 1, 1] : List ℕ) ≠ [0, 1, 2] := by decide

/-- C1 (amended): the reconciler maintains one seen-category set shared
across the sensor pass and the actuator pass and one shared running
counter (re-initialized to 0 between the passes): within each pass, the
first discovery of a category is assigned index 0, and every subsequent
discovery of an already-seen category is assigned the shared counter plus
one — so the per-category sequence is 0, 1, 2, ... only as long as no
other known category is discovered in between. -/
theorem C1_shared_counter_indexing (st : RecState) (sds : List MjSensorDev)
    (ads : List MjActuatorDev) (st1 st2 : RecState) (evs1 evs2 : List AssignEvent)
    (h1 : sensorPass st sds = some (st1, evs1))
    (h2 : actuatorPass { st1 with increment := 0, temp := emptyTemp } ads
        = some (st2, evs2)) :
    EventsOk st.seen st.increment evs1 ∧ EventsOk st1.seen 0 evs2 :=
  ⟨(sensorPass_facts sds st st1 evs1 h1).2.2.2.2,
   (actuatorPass_facts ads _ st2 evs2 h2).2.2.2.2⟩

/-- Witness for C1 (amended): two gyro sensors then one servo actuator;
the indexing discipline holds with the seen-set carried across the passes. -/
theorem C1_shared_counter_indexing_witness :
    sensorPass exInit [⟨"g1", "framequat"⟩, ⟨"g2", "framequat"⟩]
      = some (exStG, [⟨"gyro", 0, "g1"⟩, ⟨"gyro", 1, "g2"⟩])
    ∧ actuatorPass { exStG with increment := 0, temp := emptyTemp }
        [⟨"a", "position", (0, 1)⟩]
      = some (exStGS, [⟨"servo", 0, "a"⟩])
    ∧ EventsOk exInit.seen exInit.increment [⟨"gyro", 0, "g1"⟩, ⟨"gyro", 1, "g2"⟩]
    ∧ EventsOk exStG.seen 0 [⟨"servo", 0, "a"⟩] := by
  have happ := C1_shared_counter_indexing exInit
    [⟨"g1", "framequat"⟩, ⟨"g2", "framequat"⟩] [⟨"a", "position", (0, 1)⟩]
    exStG exStGS [⟨"gyro", 0, "g1"⟩, ⟨"gyro", 1, "g2"⟩] [⟨"servo", 0, "a"⟩]
    (by decide) (by decide)
  exact ⟨by decide, by decide, happ.1, happ.2⟩

/-- C5 counterexample: on the interleaved actuator scene servo `a`, servo
`b`, motor `m`, servo `c`, device `b` (declared range (2, 3)) is assigned
the same slot as the later device `c`, so the final output holds servo
entries for `a` and `c` only: no entry carries `b`'s name or its declared
bounds 2 and 3, refuting the claim for the discovered servo `b`. -/
theorem C5_counterexample :
    ((reconcile cexCaps [] cexActuators).map
        (fun r => ((dlookup r.caps.output "servo").getD []).map
          (fun p => (p.1, p.2.custom_name, p.2.min_value, p.2.max_value))))
      = some [("0", "a", 0, 1), ("1", "c", 6, 7)]
    ∧ ((reconcile cexCaps [] cexActuators).map
        (fun r => ((dlookup r.caps.output "servo").getD []).all
          (fun p => decide (p.2.custom_name ≠ "b" ∧ p.2.min_value ≠ 2
            ∧ p.2.max_value ≠ 3))))
      = some true := by decide

/-- C5 (amended): when the actuator loop records a discovered device, the
entry stamped at its assigned slot carries kind-specific limits taken from
the scene's declared control range — min/max value for a servo-type device,
max power and the fixed smoothing-window length 2 for a motor-type device —
together with the device's name and index, and that entry survives into the
final (pruned) output section provided no later device is assigned the same
category-and-index slot (as is the case whenever each category's devices
are discovered contiguously). -/
theorem C5_actuator_limits_from_scene (st : RecState) (d : MjActuatorDev)
    (stA st2 : RecState) (ev : AssignEvent) (evs2 : List AssignEvent)
    (rest : List MjActuatorDev)
    (h1 : actuatorStep st d = some (stA, [ev]))
    (h2 : actuatorPass stA rest = some (st2, evs2))
    (hno : ∀ e ∈ evs2, ¬(e.cat = ev.cat ∧ idString e.inc = idString ev.inc)) :
    dlookup2 (pruneSection st2.caps.output st2.seen) ev.cat (idString ev.inc)
      = some stA.temp
    ∧ stA.temp.custom_name = d.name
    ∧ stA.temp.feagi_index = ev.inc
    ∧ (ev.cat = "servo" →
        stA.temp.min_value = d.range.1 ∧ stA.temp.max_value = d.range.2)
    ∧ (ev.cat = "motor" →
        stA.temp.max_power = d.range.2 ∧ stA.temp.rolling_window_len = 2) := by
  rcases actuatorStep_inv st d stA [ev] h1 with ⟨_, hev⟩ | ⟨cat, inner, base,
      hS, hI, hinc, hseen, hbase, htemp, hcaps, hev⟩
  · exact absurd hev (by simp)
  · have hevc : ev = ⟨cat, stA.increment, d.name⟩ := by simpa using hev
    subst hevc
    have hlookA : dlookup2 stA.caps.output cat (idString stA.increment)
        = some stA.temp := by
      rw [hcaps]
      unfold dlookup2
      simp only [dlookup_dset_self, Option.some_bind]
    have hcA : cat ∈ stA.seen := by
      rw [hseen]
      by_cases hmem : cat ∈ st.seen
      · simp [hmem]
      · simp [hmem]
    have hc2 : cat ∈ st2.seen :=
      (actuatorPass_facts rest stA st2 evs2 h2).2.2.1 cat hcA
    have hpres : dlookup2 st2.caps.output cat (idString stA.increment)
        = dlookup2 stA.caps.output cat (idString stA.increment) :=
      actuatorPass_preserve rest stA st2 evs2 h2 cat (idString stA.increment)
        (by simpa using hno)
    have hprune : dlookup (pruneSection st2.caps.output st2.seen) cat
        = dlookup st2.caps.output cat :=
      dlookup_pruneSection_of_mem st2.caps.output st2.seen cat hc2
    refine ⟨?_, by rw [htemp], by rw [htemp], ?_, ?_⟩
    · dsimp only
      unfold dlookup2
      rw [hprune]
      have := hpres.trans hlookA
      unfold dlookup2 at this
      exact this
    · intro hsv
      dsimp only at hsv
      rw [htemp]
      simp [hsv]
    · intro hmt
      dsimp only at hmt
      have hsv : cat ≠ "servo" := by rw [hmt]; decide
      rw [htemp]
      simp [hmt, if_neg hsv]

/-- Witness for C5 (amended): servo `a` with scene range (0, 1), followed
by motor `m`; `a`'s final servo entry carries min 0 and max 1 from the
scene, not the template's bounds. -/
theorem C5_actuator_limits_from_scene_witness :
    actuatorStep exInit ⟨"a", "position", (0, 1)⟩ = some (exStA, [⟨"servo", 0, "a"⟩])
    ∧ actuatorPass exStA [⟨"m", "motor", (4, 5)⟩] = some (exStM, [⟨"motor", 0, "m"⟩])
    ∧ dlookup2 (pruneSection exStM.caps.output exStM.seen) "servo" (idString 0)
        = some exStA.temp
    ∧ exStA.temp.min_value = 0 ∧ exStA.temp.max_value = 1 := by
  have happ := C5_actuator_limits_from_scene exInit ⟨"a", "position", (0, 1)⟩
    exStA exStM ⟨"servo", 0, "a"⟩ [⟨"motor", 0, "m"⟩] [⟨"m", "motor", (4, 5)⟩]
    (by decide) (by decide) (by decide)
  refine ⟨by decide, by decide, happ.1, ?_, ?_⟩
  · exact (happ.2.2.2.1 rfl).1
  · exact (happ.2.2.2.1 rfl).2

/-- Witness for C8: the first gyro sensor deep-copies the gyro template
record at index `"0"`, and the first servo actuator's stamped record takes
its min/max from the scene range (0, 1). -/
theorem C8_base_record_copy_and_reuse_witness :
    sensorStep exInit ⟨"g1", "framequat"⟩ = some (exStG0, [⟨"gyro", 0, "g1"⟩])
    ∧ dlookup2 exStG0.caps.input "gyro" (idString 0) = some exStG0.temp
    ∧ exStG0.temp.custom_name = "g1"
    ∧ actuatorStep exInit ⟨"a", "position", (0, 1)⟩ = some (exStA, [⟨"servo", 0, "a"⟩])
    ∧ exStA.temp.min_value = 0 ∧ exStA.temp.max_value = 1 := by
  have hs := (C8_base_record_copy_and_reuse exInit).1 ⟨"g1", "framequat"⟩ exStG0
    ⟨"gyro", 0, "g1"⟩ (by decide)
  have ha := (C8_base_record_copy_and_reuse exInit).2 ⟨"a", "position", (0, 1)⟩ exStA
    ⟨"servo", 0, "a"⟩ (by decide)
  obtain ⟨e0, he0, hoth, hservo, hmotor⟩ := ha.2.2.2.1 rfl
  obtain ⟨hmp, hrw, hmax, hmin⟩ := hservo rfl
  exact ⟨by decide, hs.1, hs.2.1, by decide, hmin, hmax⟩

end MujocoController
